import Mathlib

/-!
Verification of the stroke-processing and glyph-rendering engine of
handwriting-svg-generator.

The JavaScript sources are shallowly embedded:
* JS numbers are modelled as exact rationals (`ℚ`); the engine performs only
  field arithmetic, `min`/`max` and comparisons, all of which are exact here.
  Decimal literals are written as fractions (`0.5 = 1/2`, `0.3 = 3/10`, …).
* Optional object fields (`point.pressure` may be absent) are `Option ℚ`.
* JS truthiness on numbers (`a || b`, where `0` is falsy) is `jsOr`/`jsOrOpt`.
* `Math.random()` draws, `Math.cos`, `Math.sin` and `Math.PI` are external to
  the translated code; they enter as explicit parameters of the embedding.
* `Math.hypot`-based distances are compared through their squares: `√a > √b ↔
  a > b` for nonnegative `a, b`, and `√a > t ↔ (t < 0 ∨ t² < a)`, so the
  square-based tests below are exactly the source's comparisons.
-/

namespace HandwritingSVG

/-- A captured point: `{x, y, pressure, timestamp}` (src/js data model).
`pressure` and `timestamp` may be absent from raw input points. -/
structure Point where
  x : ℚ
  y : ℚ
  pressure : Option ℚ
  timestamp : Option ℚ
deriving DecidableEq, Repr

instance : Inhabited Point := ⟨⟨0, 0, none, none⟩⟩

/-- A stroke: an ordered sequence of points (the only stroke field the engine
reads; the `{...stroke}` spreads in the source copy no other used field). -/
structure Stroke where
  points : List Point
deriving DecidableEq, Repr

instance : Inhabited Stroke := ⟨⟨[]⟩⟩

/-- Bounding box `{minX, minY, maxX, maxY, width, height}`. -/
structure Bounds where
  minX : ℚ
  minY : ℚ
  maxX : ℚ
  maxY : ℚ
  width : ℚ
  height : ℚ
deriving DecidableEq, Repr

/-- Capture metrics as saved by the capture page (ascender, xHeight, baseline,
descender, emHeight, captureWidth — all plain numbers there). -/
structure Metrics where
  ascender : ℚ
  xHeight : ℚ
  baseline : ℚ
  descender : ℚ
  emHeight : ℚ
  captureWidth : ℚ
deriving DecidableEq, Repr

/-- JS `a || b` for numbers: `0` is the only relevant falsy number here. -/
def jsOr (a b : ℚ) : ℚ := if a = 0 then b else a

/-- JS `v || b` where `v` is a possibly absent (`undefined`) number field:
both `undefined` and `0` are falsy. -/
def jsOrOpt (v : Option ℚ) (b : ℚ) : ℚ :=
  match v with
  | some q => if q = 0 then b else q
  | none => b

/-- JS `n || b` for a Nat-valued length expression (`0` is falsy). -/
def jsOrNat (n : Nat) (b : Nat) : Nat := if n = 0 then b else n

namespace StrokeProcessor

/-- `StrokeProcessor.normalize(strokes, bounds, metrics)`
(src/js/stroke-processor.js lines 15–34).
`metrics?.emHeight || bounds.height || 1` is modelled with the absent field
(`metrics` null) contributing the falsy value `0` to the `||` chain; the
`??` on `metrics?.ascender` keeps a present `ascender` even when it is `0`. -/
def normalize (strokes : List Stroke) (bounds : Bounds) (metrics : Option Metrics) :
    List Stroke :=
  if strokes = [] then []
  else
    let emHeight := jsOr (jsOr (match metrics with
      | some m => m.emHeight
      | none => 0) bounds.height) 1
    let originY := match metrics with
      | some m => m.ascender
      | none => bounds.minY
    let originX := bounds.minX
    let scale := jsOr emHeight 1
    strokes.map fun stroke =>
      ⟨stroke.points.map fun point =>
        ⟨(point.x - originX) / scale, (point.y - originY) / scale,
         some (jsOrOpt point.pressure (1/2)), some (jsOrOpt point.timestamp 0)⟩⟩

/-- `StrokeProcessor.calculateBounds(strokes)` (lines 41–68).  The source
starts the running min/max at `±Infinity`; the `Option` accumulator plays
that role (`min (∞) x = x`).  The `none` fallback (no point at all in a
nonempty stroke list) is where the source would return infinite sentinels;
stored strokes always have points, and no verified claim touches that case. -/
def calculateBounds (strokes : List Stroke) : Bounds :=
  if strokes = [] then ⟨0, 0, 0, 0, 0, 0⟩
  else
    let pts := (strokes.map Stroke.points).flatten
    match pts.foldl (fun acc p =>
      match acc with
      | none => some (p.x, p.y, p.x, p.y)
      | some (mnx, mny, mxx, mxy) =>
          some (min mnx p.x, min mny p.y, max mxx p.x, max mxy p.y)) none with
    | some (mnx, mny, mxx, mxy) => ⟨mnx, mny, mxx, mxy, mxx - mnx, mxy - mny⟩
    | none => ⟨0, 0, 0, 0, 0, 0⟩

/-- Variation configuration with the source's destructuring defaults
(`positionJitter = 0.02`, `rotationRange = 3`, `scaleRange = 0.05`). -/
structure VariationConfig where
  positionJitter : ℚ := 1/50
  rotationRange : ℚ := 3
  scaleRange : ℚ := 1/20
deriving DecidableEq, Repr

/-- `StrokeProcessor.applyVariation(strokes, config)` (lines 188–233).
The four successive `Math.random()` results are the parameters `r1 r2 r3 r4`
(drawn for rotation, scale, offsetX, offsetY in source order); `Math.cos`,
`Math.sin` and `Math.PI` are the parameters `cosF`, `sinF`, `piQ`. -/
def applyVariation (cosF sinF : ℚ → ℚ) (piQ : ℚ) (r1 r2 r3 r4 : ℚ)
    (strokes : List Stroke) (config : VariationConfig) : List Stroke :=
  let rotation := (r1 - 1/2) * 2 * config.rotationRange * (piQ / 180)
  let scale := 1 + (r2 - 1/2) * 2 * config.scaleRange
  let offsetX := (r3 - 1/2) * 2 * config.positionJitter
  let offsetY := (r4 - 1/2) * 2 * config.positionJitter
  let bounds := calculateBounds strokes
  let centerX := (bounds.minX + bounds.maxX) / 2
  let centerY := (bounds.minY + bounds.maxY) / 2
  strokes.map fun stroke =>
    ⟨stroke.points.map fun point =>
      let x := (point.x - centerX) * scale
      let y := (point.y - centerY) * scale
      let c := cosF rotation
      let s := sinF rotation
      let rotatedX := x * c - y * s
      let rotatedY := x * s + y * c
      ⟨rotatedX + centerX + offsetX, rotatedY + centerY + offsetY,
       some (jsOrOpt point.pressure (1/2)), some (jsOrOpt point.timestamp 0)⟩⟩

/-- Squared `StrokeProcessor.perpendicularDistance(point, lineStart, lineEnd)`
(lines 117–142): identical arithmetic, except that the final
`Math.hypot(a, b)` is replaced by `a² + b²` (its square). -/
def perpDistSq (point lineStart lineEnd : Point) : ℚ :=
  let dx := lineEnd.x - lineStart.x
  let dy := lineEnd.y - lineStart.y
  if dx = 0 ∧ dy = 0 then
    (point.x - lineStart.x) ^ 2 + (point.y - lineStart.y) ^ 2
  else
    let t := ((point.x - lineStart.x) * dx + (point.y - lineStart.y) * dy) /
      (dx * dx + dy * dy)
    let closestX := if t < 0 then lineStart.x
      else if 1 < t then lineEnd.x
      else lineStart.x + t * dx
    let closestY := if t < 0 then lineStart.y
      else if 1 < t then lineEnd.y
      else lineStart.y + t * dy
    (point.x - closestX) ^ 2 + (point.y - closestY) ^ 2

/-- The max-distance scan of `simplifyStroke` (lines 84–95): for `i` from `1`
to `length − 2`, track the largest (squared) perpendicular distance from the
chord `first`–`last` and its index, starting from `(0, 0)`.  Comparing the
squares gives the same argmax as the source's `dist > maxDist` because
squaring is strictly monotone on nonnegative reals. -/
def findMaxSq (pts : List Point) : ℚ × Nat :=
  ((List.range (pts.length - 2)).map (· + 1)).foldl
    (fun best i =>
      let d := perpDistSq (pts.getD i default) pts.headI pts.getLastI
      if best.1 < d then (d, i) else best)
    (0, 0)

/-- The inner recursive `simplify(pts, tol)` of `simplifyStroke`
(lines 80–105).  `maxDist > tol` with `maxDist = √maxDistSq ≥ 0` is exactly
`tol < 0 ∨ tol² < maxDistSq`.  The guarded branch returning `pts` is
reachable only when `maxIndex = 0` with `maxDist > tol`, which requires
`tol < 0`; there the source recurses forever on `pts.slice(0)`, so the
total model's answer at that dead branch is immaterial for `tol ≥ 0`. -/
def simplifyGo (pts : List Point) (tol : ℚ) : List Point :=
  if pts.length ≤ 2 then pts
  else if tol < 0 ∨ tol ^ 2 < (findMaxSq pts).1 then
    if h : 1 ≤ (findMaxSq pts).2 ∧ (findMaxSq pts).2 + 2 ≤ pts.length then
      (simplifyGo (pts.take ((findMaxSq pts).2 + 1)) tol).dropLast ++
        simplifyGo (pts.drop ((findMaxSq pts).2)) tol
    else pts
  else [pts.headI, pts.getLastI]
termination_by pts.length
decreasing_by
  · simp only [List.length_take]; omega
  · simp only [List.length_drop]; omega

/-- `StrokeProcessor.simplifyStroke(points, tolerance)` (lines 76–108). -/
def simplifyStroke (points : List Point) (tolerance : ℚ) : List Point :=
  if points.length ≤ 2 then points
  else simplifyGo points tolerance

/-- Connector `{entry, exit, width}` (entry/exit as plain `{x, y}` pairs). -/
structure Connector where
  entry : ℚ × ℚ
  exit : ℚ × ℚ
  width : ℚ
deriving DecidableEq, Repr

/-- `StrokeProcessor.extractConnectors(strokes)` (lines 241–257). -/
def extractConnectors (strokes : List Stroke) : Option Connector :=
  if strokes = [] then none
  else
    let firstStroke := strokes.headI
    let lastStroke := strokes.getLastI
    if firstStroke.points = [] ∨ lastStroke.points = [] then none
    else
      let entry := firstStroke.points.headI
      let exit := lastStroke.points.getLastI
      let bounds := calculateBounds strokes
      some ⟨(entry.x, entry.y), (exit.x, exit.y), jsOr bounds.width 0⟩

/-- `StrokeProcessor.mapPressureToWidth(pressure, minWidth, maxWidth)`
(lines 291–294). -/
def mapPressureToWidth (pressure minWidth maxWidth : ℚ) : ℚ :=
  let normalizedPressure := max 0 (min 1 pressure)
  minWidth + (maxWidth - minWidth) * normalizedPressure

end StrokeProcessor

/-! ### List helper lemmas -/

theorem headI_append_left {α} [Inhabited α] {l : List α} (r : List α) (h : l ≠ []) :
    (l ++ r).headI = l.headI := by
  cases l with
  | nil => exact absurd rfl h
  | cons a t => rfl

theorem headI_take_succ {α} [Inhabited α] (l : List α) (k : Nat) (h : l ≠ []) :
    (l.take (k + 1)).headI = l.headI := by
  cases l with
  | nil => exact absurd rfl h
  | cons a t => rfl

theorem headI_dropLast {α} [Inhabited α] (l : List α) (h : 2 ≤ l.length) :
    l.dropLast.headI = l.headI := by
  match l, h with
  | a :: b :: t, _ => rfl

theorem getLastI_append_right {α} [Inhabited α] (l : List α) {r : List α} (h : r ≠ []) :
    (l ++ r).getLastI = r.getLastI := by
  rw [List.getLastI_eq_getLast?, List.getLastI_eq_getLast?,
    List.getLast?_append_of_ne_nil _ h]

theorem getLastI_drop {α} [Inhabited α] :
    ∀ (k : Nat) (l : List α), k < l.length → (l.drop k).getLastI = l.getLastI := by
  intro k
  induction k with
  | zero => intro l _; rfl
  | succ n ih =>
      intro l hl
      cases l with
      | nil => simp at hl
      | cons a t =>
          have ht : n < t.length := by simpa using hl
          have htne : t ≠ [] := List.ne_nil_of_length_pos (by omega)
          calc ((a :: t).drop (n + 1)).getLastI = (t.drop n).getLastI := rfl
            _ = t.getLastI := ih t ht
            _ = (a :: t).getLastI := (getLastI_append_right [a] htne).symm

/-! ### Simplifier claims -/

namespace StrokeProcessor

/-- One-step unfolding of `simplifyGo`. -/
theorem simplifyGo_eq (pts : List Point) (tol : ℚ) :
    simplifyGo pts tol =
      if pts.length ≤ 2 then pts
      else if tol < 0 ∨ tol ^ 2 < (findMaxSq pts).1 then
        if h : 1 ≤ (findMaxSq pts).2 ∧ (findMaxSq pts).2 + 2 ≤ pts.length then
          (simplifyGo (pts.take ((findMaxSq pts).2 + 1)) tol).dropLast ++
            simplifyGo (pts.drop ((findMaxSq pts).2)) tol
        else pts
      else [pts.headI, pts.getLastI] := by
  rw [simplifyGo]

/-- Structural invariant of the Douglas–Peucker recursion: the output is no
longer than the input, has at least `min (length) 2` points, and keeps the
input's first and last elements.  Holds for every tolerance (in the branch
only reachable at negative tolerance the model returns the input, which
satisfies the invariant trivially). -/
theorem simplifyGo_spec (tol : ℚ) (pts : List Point) :
    (simplifyGo pts tol).length ≤ pts.length ∧
    min pts.length 2 ≤ (simplifyGo pts tol).length ∧
    (simplifyGo pts tol).headI = pts.headI ∧
    (simplifyGo pts tol).getLastI = pts.getLastI := by
  rw [simplifyGo_eq pts tol]
  by_cases h1 : pts.length ≤ 2
  · rw [if_pos h1]
    exact ⟨le_refl _, min_le_left _ _, rfl, rfl⟩
  · rw [if_neg h1]
    by_cases h2 : tol < 0 ∨ tol ^ 2 < (findMaxSq pts).1
    · rw [if_pos h2]
      by_cases h3 : 1 ≤ (findMaxSq pts).2 ∧ (findMaxSq pts).2 + 2 ≤ pts.length
      · rw [dif_pos h3]
        obtain ⟨h3a, h3b⟩ := h3
        have IH1 := simplifyGo_spec tol (pts.take ((findMaxSq pts).2 + 1))
        have IH2 := simplifyGo_spec tol (pts.drop ((findMaxSq pts).2))
        have hTlen : (pts.take ((findMaxSq pts).2 + 1)).length = (findMaxSq pts).2 + 1 := by
          simp only [List.length_take]; omega
        have hDlen : (pts.drop ((findMaxSq pts).2)).length = pts.length - (findMaxSq pts).2 := by
          simp only [List.length_drop]
        rw [hTlen] at IH1
        rw [hDlen] at IH2
        have hL2 : 2 ≤ (simplifyGo (pts.take ((findMaxSq pts).2 + 1)) tol).length := by
          have := IH1.2.1; omega
        have hR2 : 2 ≤ (simplifyGo (pts.drop ((findMaxSq pts).2)) tol).length := by
          have := IH2.2.1; omega
        have hLdne : (simplifyGo (pts.take ((findMaxSq pts).2 + 1)) tol).dropLast ≠ [] := by
          apply List.ne_nil_of_length_pos
          simp only [List.length_dropLast]; omega
        have hRne : simplifyGo (pts.drop ((findMaxSq pts).2)) tol ≠ [] :=
          List.ne_nil_of_length_pos (by omega)
        have hpne : pts ≠ [] := List.ne_nil_of_length_pos (by omega)
        refine ⟨?_, ?_, ?_, ?_⟩
        · simp only [List.length_append, List.length_dropLast]; omega
        · simp only [List.length_append, List.length_dropLast]; omega
        · rw [headI_append_left _ hLdne, headI_dropLast _ hL2, IH1.2.2.1,
            headI_take_succ pts ((findMaxSq pts).2) hpne]
        · rw [getLastI_append_right _ hRne, IH2.2.2.2,
            getLastI_drop ((findMaxSq pts).2) pts (by omega)]
      · rw [dif_neg h3]
        exact ⟨le_refl _, min_le_left _ _, rfl, rfl⟩
    · rw [if_neg h2]
      refine ⟨?_, ?_, rfl, rfl⟩
      · simp only [List.length_cons, List.length_nil]; omega
      · simp only [List.length_cons, List.length_nil]; omega
termination_by pts.length
decreasing_by
  · simp only [List.length_take]; omega
  · simp only [List.length_drop]; omega

/-- Monotonicity of the Douglas–Peucker recursion in the tolerance: for
`0 ≤ t1 ≤ t2` the output at `t2` is never longer than the output at `t1`.
The chord, the max-distance index and the recursion tree depend only on the
points, so a larger tolerance can only prune the recursion earlier. -/
theorem simplifyGo_mono (t1 t2 : ℚ) (h0 : 0 ≤ t1) (h12 : t1 ≤ t2) (pts : List Point) :
    (simplifyGo pts t2).length ≤ (simplifyGo pts t1).length := by
  by_cases h1 : pts.length ≤ 2
  · rw [simplifyGo_eq pts t2, simplifyGo_eq pts t1, if_pos h1, if_pos h1]
  · by_cases h2 : t2 < 0 ∨ t2 ^ 2 < (findMaxSq pts).1
    · have ht2 : 0 ≤ t2 := le_trans h0 h12
      have h2sq : t2 ^ 2 < (findMaxSq pts).1 := by
        rcases h2 with h | h
        · exact absurd h (not_lt.mpr ht2)
        · exact h
      have h1sq : t1 ^ 2 < (findMaxSq pts).1 :=
        lt_of_le_of_lt (pow_le_pow_left₀ h0 h12 2) h2sq
      rw [simplifyGo_eq pts t2, simplifyGo_eq pts t1, if_neg h1, if_neg h1,
        if_pos (Or.inr h2sq), if_pos (Or.inr h1sq)]
      by_cases h3 : 1 ≤ (findMaxSq pts).2 ∧ (findMaxSq pts).2 + 2 ≤ pts.length
      · rw [dif_pos h3, dif_pos h3]
        have IH1 := simplifyGo_mono t1 t2 h0 h12 (pts.take ((findMaxSq pts).2 + 1))
        have IH2 := simplifyGo_mono t1 t2 h0 h12 (pts.drop ((findMaxSq pts).2))
        simp only [List.length_append, List.length_dropLast]
        omega
      · rw [dif_neg h3, dif_neg h3]
    · have hcollapse : simplifyGo pts t2 = [pts.headI, pts.getLastI] := by
        rw [simplifyGo_eq pts t2, if_neg h1, if_neg h2]
      have hlow := (simplifyGo_spec t1 pts).2.1
      rw [hcollapse]
      simp only [List.length_cons, List.length_nil]
      omega
termination_by pts.length
decreasing_by
  · simp only [List.length_take]; omega
  · simp only [List.length_drop]; omega

end StrokeProcessor

/-- C1: for every point sequence and every tolerance `t ≥ 0`,
`simplifyStroke(points, t)` returns a sequence no longer than the input
whose first and last elements equal the input's first and last elements
exactly. -/
theorem simplifyStroke_C1_endpoints (points : List Point) (tolerance : ℚ)
    (htol : 0 ≤ tolerance) :
    (StrokeProcessor.simplifyStroke points tolerance).length ≤ points.length ∧
    (StrokeProcessor.simplifyStroke points tolerance).headI = points.headI ∧
    (StrokeProcessor.simplifyStroke points tolerance).getLastI = points.getLastI := by
  unfold StrokeProcessor.simplifyStroke
  by_cases h : points.length ≤ 2
  · simp [h]
  · rw [if_neg h]
    have hs := StrokeProcessor.simplifyGo_spec tolerance points
    exact ⟨hs.1, hs.2.2.1, hs.2.2.2⟩

/-- Witness for `simplifyStroke_C1_endpoints` on the spec's concrete stroke
`(0,0), (10,0), (10,10), (20,10)` at tolerance `0`. -/
theorem simplifyStroke_C1_endpoints_witness :
    ((0:ℚ) ≤ 0) ∧
    ((StrokeProcessor.simplifyStroke
        [⟨0, 0, none, none⟩, ⟨10, 0, none, none⟩, ⟨10, 10, none, none⟩, ⟨20, 10, none, none⟩]
        0).length ≤
      ([⟨0, 0, none, none⟩, ⟨10, 0, none, none⟩, ⟨10, 10, none, none⟩,
        ⟨20, 10, none, none⟩] : List Point).length ∧
     (StrokeProcessor.simplifyStroke
        [⟨0, 0, none, none⟩, ⟨10, 0, none, none⟩, ⟨10, 10, none, none⟩, ⟨20, 10, none, none⟩]
        0).headI =
      ([⟨0, 0, none, none⟩, ⟨10, 0, none, none⟩, ⟨10, 10, none, none⟩,
        ⟨20, 10, none, none⟩] : List Point).headI ∧
     (StrokeProcessor.simplifyStroke
        [⟨0, 0, none, none⟩, ⟨10, 0, none, none⟩, ⟨10, 10, none, none⟩, ⟨20, 10, none, none⟩]
        0).getLastI =
      ([⟨0, 0, none, none⟩, ⟨10, 0, none, none⟩, ⟨10, 10, none, none⟩,
        ⟨20, 10, none, none⟩] : List Point).getLastI) :=
  ⟨le_refl 0,
   simplifyStroke_C1_endpoints
     [⟨0, 0, none, none⟩, ⟨10, 0, none, none⟩, ⟨10, 10, none, none⟩, ⟨20, 10, none, none⟩]
     0 (le_refl 0)⟩

/-- C6: for a fixed point sequence and tolerances `0 ≤ t1 ≤ t2`, the output
of `simplifyStroke` at `t2` is never longer than the output at `t1`
(tolerances are nonnegative; at a negative tolerance the source recursion
does not terminate on collinear interior points). -/
theorem simplifyStroke_C6_mono (points : List Point) (t1 t2 : ℚ)
    (h0 : 0 ≤ t1) (h12 : t1 ≤ t2) :
    (StrokeProcessor.simplifyStroke points t2).length ≤
      (StrokeProcessor.simplifyStroke points t1).length := by
  unfold StrokeProcessor.simplifyStroke
  by_cases h : points.length ≤ 2
  · simp [h]
  · rw [if_neg h, if_neg h]
    exact StrokeProcessor.simplifyGo_mono t1 t2 h0 h12 points

/-- Witness for `simplifyStroke_C6_mono` at tolerances `0 ≤ 1` on the spec's
concrete stroke. -/
theorem simplifyStroke_C6_mono_witness :
    ((0:ℚ) ≤ 0) ∧ ((0:ℚ) ≤ 1) ∧
    (StrokeProcessor.simplifyStroke
        [⟨0, 0, none, none⟩, ⟨10, 0, none, none⟩, ⟨10, 10, none, none⟩, ⟨20, 10, none, none⟩]
        1).length ≤
      (StrokeProcessor.simplifyStroke
        [⟨0, 0, none, none⟩, ⟨10, 0, none, none⟩, ⟨10, 10, none, none⟩, ⟨20, 10, none, none⟩]
        0).length :=
  ⟨le_refl 0, zero_le_one,
   simplifyStroke_C6_mono
     [⟨0, 0, none, none⟩, ⟨10, 0, none, none⟩, ⟨10, 10, none, none⟩, ⟨20, 10, none, none⟩]
     0 1 (le_refl 0) zero_le_one⟩

/-! ### Normalizer claims -/

/-- Claim-side scale factor, following the specification's words:
`metrics.emHeight` if present and nonzero, else `bounds.height` if nonzero,
else `1`. -/
def normScaleSpec (bounds : Bounds) (metrics : Option Metrics) : ℚ :=
  match metrics with
  | some m =>
      if m.emHeight ≠ 0 then m.emHeight
      else if bounds.height ≠ 0 then bounds.height else 1
  | none => if bounds.height ≠ 0 then bounds.height else 1

/-- Claim-side vertical origin: `metrics.ascender` when metrics are supplied,
`bounds.minY` otherwise. -/
def normOriginYSpec (bounds : Bounds) (metrics : Option Metrics) : ℚ :=
  match metrics with
  | some m => m.ascender
  | none => bounds.minY

/-- The source's `||` chain for the scale agrees with the specification's
scale factor. -/
theorem normalize_scale_eq (bounds : Bounds) (metrics : Option Metrics) :
    jsOr (jsOr (jsOr (match metrics with
      | some m => m.emHeight
      | none => 0) bounds.height) 1) 1 = normScaleSpec bounds metrics := by
  cases metrics with
  | none => simp only [normScaleSpec, jsOr]; split_ifs <;> simp_all
  | some m => simp only [normScaleSpec, jsOr]; split_ifs <;> simp_all

/-- C3: for every non-empty stroke set, `normalize` maps each point to
`x' = (x − bounds.minX)/scale`, `y' = (y − originY)/scale`, where `originY`
is `metrics.ascender` when metrics are supplied and `bounds.minY` otherwise,
and `scale` is `metrics.emHeight` if present and nonzero, else
`bounds.height` if nonzero, else `1`, the same scale on both axes; with
bounds `{0, 0, 40, 60, 40, 60}` and metrics `{ascender: 0, emHeight: 60}`
the point `(20, 30)` normalizes to `(1/3, 1/2)`. -/
theorem normalize_C3_formula :
    (∀ (strokes : List Stroke) (bounds : Bounds) (metrics : Option Metrics),
      strokes ≠ [] →
      StrokeProcessor.normalize strokes bounds metrics = strokes.map fun stroke =>
        ⟨stroke.points.map fun point =>
          ⟨(point.x - bounds.minX) / normScaleSpec bounds metrics,
           (point.y - normOriginYSpec bounds metrics) / normScaleSpec bounds metrics,
           some (jsOrOpt point.pressure (1/2)), some (jsOrOpt point.timestamp 0)⟩⟩) ∧
    StrokeProcessor.normalize [⟨[⟨20, 30, none, none⟩]⟩] ⟨0, 0, 40, 60, 40, 60⟩
        (some ⟨0, 0, 0, 0, 60, 0⟩) = [⟨[⟨1/3, 1/2, some (1/2), some 0⟩]⟩] := by
  constructor
  · intro strokes bounds metrics h
    unfold StrokeProcessor.normalize
    rw [if_neg h]
    simp only [normalize_scale_eq, normOriginYSpec]
  · unfold StrokeProcessor.normalize
    norm_num [jsOr, jsOrOpt]

/-- Witness for `normalize_C3_formula` at a concrete non-empty stroke set. -/
theorem normalize_C3_formula_witness :
    ([⟨[⟨20, 30, none, none⟩]⟩] : List Stroke) ≠ [] ∧
    StrokeProcessor.normalize [⟨[⟨20, 30, none, none⟩]⟩] ⟨0, 0, 40, 60, 40, 60⟩
        (some ⟨0, 0, 0, 0, 60, 0⟩) =
      ([⟨[⟨20, 30, none, none⟩]⟩] : List Stroke).map fun stroke =>
        ⟨stroke.points.map fun point =>
          ⟨(point.x - (0:ℚ)) / normScaleSpec ⟨0, 0, 40, 60, 40, 60⟩ (some ⟨0, 0, 0, 0, 60, 0⟩),
           (point.y - normOriginYSpec ⟨0, 0, 40, 60, 40, 60⟩ (some ⟨0, 0, 0, 0, 60, 0⟩)) /
             normScaleSpec ⟨0, 0, 40, 60, 40, 60⟩ (some ⟨0, 0, 0, 0, 60, 0⟩),
           some (jsOrOpt point.pressure (1/2)), some (jsOrOpt point.timestamp 0)⟩⟩ :=
  ⟨List.cons_ne_nil _ _,
   normalize_C3_formula.1 [⟨[⟨20, 30, none, none⟩]⟩] ⟨0, 0, 40, 60, 40, 60⟩
     (some ⟨0, 0, 0, 0, 60, 0⟩) (List.cons_ne_nil _ _)⟩

/-- C4 counterexample: a point whose pressure is present and equal to `0`
comes out of `normalize` with pressure `0.5`, not `0` — the source's
`point.pressure || 0.5` treats the present value `0` as missing. -/
theorem normalize_C4_pressure_zero_cex :
    StrokeProcessor.normalize [⟨[⟨0, 0, some 0, some 5⟩]⟩] ⟨0, 0, 1, 1, 1, 1⟩ none =
      [⟨[⟨0, 0, some (1/2), some 5⟩]⟩] ∧ some ((1:ℚ)/2) ≠ some (0:ℚ) := by
  constructor
  · unfold StrokeProcessor.normalize
    norm_num [jsOr, jsOrOpt]
  · simp

/-- C4 (amended): `normalize` maps every point's pressure to
`pressure || 0.5` and timestamp to `timestamp || 0`; hence a present nonzero
pressure passes through unchanged, a present timestamp passes through
unchanged (`0 || 0 = 0`), an absent pressure becomes `0.5`, and a present
pressure of `0` also becomes `0.5`. -/
theorem normalize_C4_pressure_timestamp :
    (∀ (strokes : List Stroke) (bounds : Bounds) (metrics : Option Metrics),
      (StrokeProcessor.normalize strokes bounds metrics).map
          (fun s => s.points.map fun p => (p.pressure, p.timestamp)) =
        strokes.map fun s => s.points.map fun p =>
          (some (jsOrOpt p.pressure (1/2)), some (jsOrOpt p.timestamp 0))) ∧
    (∀ q : ℚ, q ≠ 0 → jsOrOpt (some q) (1/2) = q) ∧
    (∀ t : ℚ, jsOrOpt (some t) 0 = t) ∧
    jsOrOpt none (1/2) = 1/2 ∧ jsOrOpt (some 0) (1/2) = 1/2 := by
  refine ⟨?_, ?_, ?_, by simp [jsOrOpt], by simp [jsOrOpt]⟩
  · intro strokes bounds metrics
    unfold StrokeProcessor.normalize
    by_cases h : strokes = []
    · simp [h]
    · rw [if_neg h]
      simp [List.map_map, Function.comp]
  · intro q hq
    simp [jsOrOpt, hq]
  · intro t
    by_cases ht : t = 0 <;> simp [jsOrOpt, ht]

/-- Witness for `normalize_C4_pressure_timestamp` at a concrete nonzero
pressure. -/
theorem normalize_C4_pressure_timestamp_witness :
    ((1:ℚ) ≠ 0) ∧ jsOrOpt (some 1) (1/2) = 1 :=
  ⟨one_ne_zero, normalize_C4_pressure_timestamp.2.1 1 one_ne_zero⟩

/-! ### Variator claims -/

/-- C5: with configuration `{positionJitter: 0, rotationRange: 0,
scaleRange: 0}`, `applyVariation` returns strokes whose point coordinates
equal the input coordinates, for every value of the random draws (and any
model of `Math.cos`/`Math.sin` that is exact at angle `0`). -/
theorem applyVariation_C5_identity (cosF sinF : ℚ → ℚ)
    (hc : cosF 0 = 1) (hs : sinF 0 = 0) (piQ r1 r2 r3 r4 : ℚ)
    (strokes : List Stroke) :
    (StrokeProcessor.applyVariation cosF sinF piQ r1 r2 r3 r4 strokes ⟨0, 0, 0⟩).map
        (fun s => s.points.map fun p => (p.x, p.y)) =
      strokes.map fun s => s.points.map fun p => (p.x, p.y) := by
  unfold StrokeProcessor.applyVariation
  have hrot : (r1 - 1/2) * 2 * (0:ℚ) * (piQ / 180) = 0 := by ring
  simp only [List.map_map]
  refine List.map_congr_left fun stroke _ => ?_
  simp only [Function.comp_apply, List.map_map]
  refine List.map_congr_left fun point _ => ?_
  simp only [Function.comp_apply]
  rw [hrot, hc, hs]
  simp only [Prod.mk.injEq]
  constructor <;> ring

/-- Witness for `applyVariation_C5_identity` with concrete trig functions
that are exact at `0`, concrete random draws, and a concrete stroke. -/
theorem applyVariation_C5_identity_witness :
    ((fun _ : ℚ => (1:ℚ)) 0 = 1) ∧ ((fun _ : ℚ => (0:ℚ)) 0 = 0) ∧
    (StrokeProcessor.applyVariation (fun _ => 1) (fun _ => 0) 3 (1/4) (2/3) 1 0
        [⟨[⟨7, 9, some 1, some 2⟩]⟩] ⟨0, 0, 0⟩).map
        (fun s => s.points.map fun p => (p.x, p.y)) =
      ([⟨[⟨7, 9, some 1, some 2⟩]⟩] : List Stroke).map
        (fun s => s.points.map fun p => (p.x, p.y)) :=
  ⟨rfl, rfl,
   applyVariation_C5_identity (fun _ => 1) (fun _ => 0) rfl rfl 3 (1/4) (2/3) 1 0
     [⟨[⟨7, 9, some 1, some 2⟩]⟩]⟩

/-! ### Shape preservation (C10) -/

/-- C10: `normalize` and `applyVariation` preserve the shape of their input:
same number of strokes, and each output stroke has the same number of points
as the corresponding input stroke. -/
theorem normalize_applyVariation_C10_shape (strokes : List Stroke) (bounds : Bounds)
    (metrics : Option Metrics) (cosF sinF : ℚ → ℚ) (piQ r1 r2 r3 r4 : ℚ)
    (config : StrokeProcessor.VariationConfig) :
    (StrokeProcessor.normalize strokes bounds metrics).length = strokes.length ∧
    (StrokeProcessor.normalize strokes bounds metrics).map (fun s => s.points.length) =
      strokes.map (fun s => s.points.length) ∧
    (StrokeProcessor.applyVariation cosF sinF piQ r1 r2 r3 r4 strokes config).length =
      strokes.length ∧
    (StrokeProcessor.applyVariation cosF sinF piQ r1 r2 r3 r4 strokes config).map
        (fun s => s.points.length) = strokes.map (fun s => s.points.length) := by
  refine ⟨?_, ?_, ?_, ?_⟩
  · unfold StrokeProcessor.normalize
    by_cases h : strokes = [] <;> simp [h]
  · unfold StrokeProcessor.normalize
    by_cases h : strokes = [] <;> simp [h, List.map_map, Function.comp]
  · unfold StrokeProcessor.applyVariation
    simp
  · unfold StrokeProcessor.applyVariation
    simp [List.map_map, Function.comp]

/-! ### FontData: JSON import (src/js/font-data.js) -/

/-- A parsed JSON value (the possible results of `JSON.parse`). -/
inductive JValue where
  | jnull
  | jbool (b : Bool)
  | jnum (q : ℚ)
  | jstr (s : String)
  | jarr (elems : List JValue)
  | jobj (fields : List (String × JValue))

/-- The in-memory `FontData` state touched by `importJSON`: the
`characters` mapping and the `metadata` object, kept as raw JSON values
(`this.characters = data.characters` stores the parsed object itself). -/
structure FontDataState where
  characters : JValue
  metadata : JValue

/-- JS property read `v.key`: defined fields of objects only; property
access on `null` throws in the source, and on any other non-object yields
`undefined` — both are `none` here (the `null` case is caught by the same
`try`/`catch` that returns `false`). -/
def getField (v : JValue) (key : String) : Option JValue :=
  match v with
  | .jobj fields => fields.lookup key
  | _ => none

/-- JS truthiness of a parsed JSON value. -/
def jsTruthy (v : JValue) : Bool :=
  match v with
  | .jnull => false
  | .jbool b => b
  | .jnum q => q ≠ 0
  | .jstr s => s ≠ ""
  | .jarr _ => true
  | .jobj _ => true

/-- The source's validation of `data.characters`:
`!data.characters || typeof data.characters !== "object"` throws.  A value
passes iff it is truthy and of JS type `"object"`, i.e. an object or an
array (`null` has type `"object"` but is falsy). -/
def validCharactersField (v : JValue) : Bool :=
  match v with
  | .jarr _ => true
  | .jobj _ => true
  | _ => false

/-- `FontData.importJSON(jsonString)` (src/js/font-data.js lines 159–181).
`JSON.parse` is external I/O and enters as an oracle argument: `none` when
parsing throws, `some v` when it returns `v`.  `freshMetadata` stands for
the `new Date()`-based default metadata object built when `data.metadata`
is falsy.  The result pairs the returned boolean with the new state. -/
def importJSON (freshMetadata : JValue) (fd : FontDataState) (parsed : Option JValue) :
    Bool × FontDataState :=
  match parsed with
  | none => (false, fd)
  | some data =>
      match getField data "characters" with
      | some c =>
          if validCharactersField c then
            (true, ⟨c, match getField data "metadata" with
                       | some m => if jsTruthy m then m else freshMetadata
                       | none => freshMetadata⟩)
          else (false, fd)
      | none => (false, fd)

/-- Claim-side predicate: the input parses to a value carrying a
`characters` mapping (an object in the JS sense). -/
def parsedHasCharacters (parsed : Option JValue) : Bool :=
  match parsed with
  | some data =>
      match getField data "characters" with
      | some c => validCharactersField c
      | none => false
  | none => false

/-- C7: when the parse fails or the parsed value has no `characters`
object, `importJSON` returns `false` and leaves the previous state — both
the characters mapping and the metadata — exactly as it was (no partial
application); and it returns `true` exactly when the input parses to a
value with a `characters` mapping. -/
theorem importJSON_C7_atomic (freshMetadata : JValue) (fd : FontDataState)
    (parsed : Option JValue) :
    (parsedHasCharacters parsed = false →
      importJSON freshMetadata fd parsed = (false, fd)) ∧
    ((importJSON freshMetadata fd parsed).1 = true ↔
      parsedHasCharacters parsed = true) := by
  cases parsed with
  | none => exact ⟨fun _ => rfl, by simp [importJSON, parsedHasCharacters]⟩
  | some data =>
      unfold importJSON parsedHasCharacters
      cases hf : getField data "characters" with
      | none => simp [hf]
      | some c =>
          by_cases hv : validCharactersField c = true
          · simp [hf, hv]
          · simp only [Bool.not_eq_true] at hv
            simp [hf, hv]

/-- Witness for `importJSON_C7_atomic`: a failing parse (`none`) against a
concrete prior state leaves that state untouched. -/
theorem importJSON_C7_atomic_witness :
    parsedHasCharacters none = false ∧
    importJSON (JValue.jobj []) ⟨JValue.jobj [("a", JValue.jnull)], JValue.jnull⟩ none =
      (false, ⟨JValue.jobj [("a", JValue.jnull)], JValue.jnull⟩) :=
  ⟨rfl, (importJSON_C7_atomic (JValue.jobj [])
    ⟨JValue.jobj [("a", JValue.jnull)], JValue.jnull⟩ none).1 rfl⟩

/-! ### TextRenderer (src/js/text-renderer.js)

The renderer builds an SVG string; the embedding keeps the emitted geometry
as structured values instead of text: path data is a list of path commands
with exact rational coordinates (the source's `toFixed(2)` rounds only the
printed text), and the per-line output is a list of emitted elements.  The
shared stroke color is a constant of the render config and plays no role in
any claim, so elements carry no color field. -/

namespace TextRenderer

/-- `MIN_STROKE_WIDTH` (src/js/text-renderer.js line 12). -/
def MIN_STROKE_WIDTH : ℚ := 3/2

/-- `MAX_STROKE_WIDTH` (line 13). -/
def MAX_STROKE_WIDTH : ℚ := 3

/-- A stored character record (font document schema). -/
structure Character where
  strokes : List Stroke
  bounds : Bounds
  baseline : ℚ
  metrics : Option Metrics
  connectors : Option StrokeProcessor.Connector
deriving DecidableEq, Repr

/-- The loaded font document's `characters` mapping, as an association list
from glyph key (single character or two-character ligature) to record. -/
def FontDoc := List (String × Character)

/-- `FontData.hasCharacter(char)` / a successful `getCharacter` lookup. -/
def hasCharacter (fd : FontDoc) (key : String) : Bool :=
  (List.lookup key fd).isSome

/-- `getBaselineNorm(charData)` (lines 338–345): `(baseline − ascender) /
emHeight` when `charData?.metrics?.emHeight` is truthy, else the fixed
fallback `0.7`. -/
def getBaselineNorm (charData : Character) : ℚ :=
  match charData.metrics with
  | some m => if m.emHeight = 0 then 7/10 else (m.baseline - m.ascender) / m.emHeight
  | none => 7/10

/-- One SVG path-data command (`M`, `Q` or `L`). -/
inductive PathCmd where
  | move (x y : ℚ)
  | quad (cx cy ex ey : ℚ)
  | lineTo (x y : ℚ)
deriving DecidableEq, Repr

/-- `generatePathData(points, scale)` (lines 347–374): move to the first
point; for at least 3 points emit one quadratic per interior point `i`
(control point `points[i]`, endpoint the midpoint of `points[i]` and
`points[i+1]`) and finish with a straight segment to the last point;
otherwise emit straight segments.  An empty input yields no commands. -/
def generatePathData (points : List Point) (scale : ℚ) : List PathCmd :=
  match points with
  | [] => []
  | p0 :: _ =>
      if 2 < points.length then
        PathCmd.move (p0.x * scale) (p0.y * scale) ::
          (((points.drop 1).zip (points.drop 2)).map fun pr =>
            PathCmd.quad (pr.1.x * scale) (pr.1.y * scale)
              ((pr.1.x + pr.2.x) / 2 * scale) ((pr.1.y + pr.2.y) / 2 * scale)) ++
          [PathCmd.lineTo (points.getLastI.x * scale) (points.getLastI.y * scale)]
      else
        PathCmd.move (p0.x * scale) (p0.y * scale) ::
          (points.drop 1).map fun p => PathCmd.lineTo (p.x * scale) (p.y * scale)

/-- The stroke's mean pressure (each point's pressure defaulted by
`p.pressure || 0.5`), as computed by the `reduce`/`length` pattern of
`renderCharacter` (lines 318–320). -/
def avgPressure (points : List Point) : ℚ :=
  (points.foldl (fun sum p => sum + jsOrOpt p.pressure (1/2)) 0) / points.length

/-- One emitted `<path>` element: its path data and stroke width. -/
structure PathElem where
  d : List PathCmd
  width : ℚ
deriving DecidableEq, Repr

/-- One emitted `<g transform="translate(x, y)">` character group. -/
structure CharGroup where
  x : ℚ
  y : ℚ
  paths : List PathElem
deriving DecidableEq, Repr

/-- `renderCharacter(strokes, x, baselineY, size, charData)` (lines
306–336): translate to `(x, baselineY − baselineNorm·size)` and emit one
path per stroke — skipping every stroke with fewer than 2 points. -/
def renderCharacter (strokes : List Stroke) (x baselineY size : ℚ)
    (charData : Character) : CharGroup :=
  let baselineNorm := getBaselineNorm charData
  let yOffset := baselineY - baselineNorm * size
  ⟨x, yOffset,
   strokes.filterMap fun stroke =>
     if stroke.points.length < 2 then none
     else
       some ⟨generatePathData stroke.points size,
             StrokeProcessor.mapPressureToWidth (avgPressure stroke.points)
               MIN_STROKE_WIDTH MAX_STROKE_WIDTH⟩⟩

/-- The render configuration (`config`, lines 14–21). -/
structure RenderConfig where
  fontSize : ℚ
  letterSpacing : ℚ
  lineHeight : ℚ
  variation : ℚ
  connectCursive : Bool
deriving DecidableEq, Repr

/-- One element appended to the line's SVG content: either a cursive
joining segment or a rendered character group. -/
inductive SvgElem where
  | joinSeg (x1 y1 x2 y2 strokeWidth : ℚ)
  | glyph (g : CharGroup)
deriving DecidableEq, Repr

/-- `prevConnector` (line 288): the spread connector plus the absolute exit
position and the approximated stroke width. -/
structure PrevConnector where
  conn : StrokeProcessor.Connector
  exitAbsX : ℚ
  exitAbsY : ℚ
  strokeWidth : ℚ
deriving DecidableEq, Repr

/-- The loop state of `renderLine` (lines 196–199): cursor `x`, emitted
content, collected missing keys, previous connector.  `randIdx` is the
position in the ambient `Math.random()` stream (each rendered glyph draws
four values in `applyVariation`).  `tokens` and `advanceCount` are
observational ghost fields recording, respectively, the glyph key consumed
by each loop iteration and the number of cursor advances; they shadow the
source without altering it. -/
structure LineState where
  x : ℚ
  svg : List SvgElem
  missing : List String
  prevConnector : Option PrevConnector
  randIdx : Nat
  tokens : List String
  advanceCount : Nat
deriving DecidableEq, Repr

/-- One iteration of the `renderLine` loop body (lines 201–294) for the
resolved `glyphKey` (already chosen by the pair-first lookup): handle
space, missing key, or render the found character.  `JSON.parse(
JSON.stringify(...))` is a deep copy and is the identity on these pure
values. -/
def lineStep (fd : FontDoc) (cfg : RenderConfig) (cosF sinF : ℚ → ℚ) (piQ : ℚ)
    (rand : Nat → ℚ) (startY : ℚ) (glyphKey : String) (st : LineState) : LineState :=
  if glyphKey = " " then
    ⟨st.x + cfg.fontSize * (3/10), st.svg, st.missing, st.prevConnector, st.randIdx,
     st.tokens ++ [glyphKey], st.advanceCount + 1⟩
  else
    match List.lookup glyphKey fd with
    | none =>
        ⟨st.x + cfg.fontSize * (1/2), st.svg, st.missing ++ [glyphKey],
         st.prevConnector, st.randIdx, st.tokens ++ [glyphKey], st.advanceCount + 1⟩
    | some charData =>
        let normalizedStrokes :=
          StrokeProcessor.normalize charData.strokes charData.bounds charData.metrics
        let variationConfig : StrokeProcessor.VariationConfig :=
          ⟨cfg.variation * (1/100), cfg.variation * (3/2), cfg.variation * (1/50)⟩
        let variedStrokes := StrokeProcessor.applyVariation cosF sinF piQ
          (rand st.randIdx) (rand (st.randIdx + 1)) (rand (st.randIdx + 2))
          (rand (st.randIdx + 3)) normalizedStrokes variationConfig
        let baselineNorm := getBaselineNorm charData
        let yOffset := startY - baselineNorm * cfg.fontSize
        let connector := StrokeProcessor.extractConnectors variedStrokes
        let joinSvg : List SvgElem :=
          match st.prevConnector, connector with
          | some pc, some conn =>
              if cfg.connectCursive then
                [SvgElem.joinSeg pc.exitAbsX pc.exitAbsY
                  (st.x + conn.entry.1 * cfg.fontSize)
                  (yOffset + conn.entry.2 * cfg.fontSize) pc.strokeWidth]
              else []
          | _, _ => []
        let charSVG := renderCharacter variedStrokes st.x startY cfg.fontSize charData
        let normalizedBounds := StrokeProcessor.calculateBounds variedStrokes
        let normalizedWidth := jsOr normalizedBounds.width (3/5)
        let charWidth := normalizedWidth * cfg.fontSize
        let newPrev : Option PrevConnector :=
          match connector with
          | some conn =>
              let exitAbsX := st.x + conn.exit.1 * cfg.fontSize
              let exitAbsY := yOffset + conn.exit.2 * cfg.fontSize
              let firstStroke := variedStrokes.headI
              let pointCount := jsOrNat firstStroke.points.length 1
              let avgP :=
                (firstStroke.points.foldl (fun sum p => sum + jsOrOpt p.pressure (1/2)) 0) /
                  (pointCount : ℚ)
              some ⟨conn, exitAbsX, exitAbsY,
                StrokeProcessor.mapPressureToWidth avgP MIN_STROKE_WIDTH MAX_STROKE_WIDTH⟩
          | none => none
        ⟨st.x + charWidth + cfg.letterSpacing,
         st.svg ++ joinSvg ++ [SvgElem.glyph charSVG],
         st.missing, newPrev, st.randIdx + 4,
         st.tokens ++ [glyphKey], st.advanceCount + 1⟩

/-- The `renderLine` cursor loop (lines 201–294) over the remaining
characters of the line.  At each position the two-character slice is
preferred when it is a stored key (`usePair`), consuming two characters;
otherwise a single character is consumed (`step = 1`); at the final
character no pair is possible (`i + 1 < text.length` fails). -/
def renderLineGo (fd : FontDoc) (cfg : RenderConfig) (cosF sinF : ℚ → ℚ) (piQ : ℚ)
    (rand : Nat → ℚ) (startY : ℚ) : List Char → LineState → LineState
  | [], st => st
  | [c], st => lineStep fd cfg cosF sinF piQ rand startY (String.mk [c]) st
  | c1 :: c2 :: rest, st =>
      if hasCharacter fd (String.mk [c1, c2]) then
        renderLineGo fd cfg cosF sinF piQ rand startY rest
          (lineStep fd cfg cosF sinF piQ rand startY (String.mk [c1, c2]) st)
      else
        renderLineGo fd cfg cosF sinF piQ rand startY (c2 :: rest)
          (lineStep fd cfg cosF sinF piQ rand startY (String.mk [c1]) st)

/-- The value `renderLine` actually returns (lines 300–303): the
accumulated geometry and the total advanced width — nothing else. -/
structure LineResult where
  svg : List SvgElem
  width : ℚ
deriving DecidableEq, Repr

/-- `renderLine(text, startX, startY)` (lines 195–304): run the loop from
cursor `startX` with empty accumulators, then return `{svg, width:
xPosition − startX}`.  The collected `missingChars` are only passed to
`console.warn` (line 297) and do not appear in the returned value. -/
def renderLine (fd : FontDoc) (cfg : RenderConfig) (cosF sinF : ℚ → ℚ) (piQ : ℚ)
    (rand : Nat → ℚ) (text : String) (startX startY : ℚ) : LineResult :=
  let final := renderLineGo fd cfg cosF sinF piQ rand startY text.data
    ⟨startX, [], [], none, 0, [], 0⟩
  ⟨final.svg, final.x - startX⟩

/-- Claim-side description of the missing keys of a line: walk the line
with the same pair-first tokenization; a resolved key is recorded iff it is
not the space glyph and is absent from the document. -/
def lineMissingSpec (fd : FontDoc) : List Char → List String
  | [] => []
  | [c] =>
      if String.mk [c] = " " then []
      else if hasCharacter fd (String.mk [c]) then []
      else [String.mk [c]]
  | c1 :: c2 :: rest =>
      if hasCharacter fd (String.mk [c1, c2]) then
        lineMissingSpec fd rest
      else
        (if String.mk [c1] = " " then []
         else if hasCharacter fd (String.mk [c1]) then []
         else [String.mk [c1]]) ++ lineMissingSpec fd (c2 :: rest)

/-- Every loop iteration — space, missing or rendered glyph — records its
resolved glyph key once and advances the cursor once. -/
theorem lineStep_tokens (fd : FontDoc) (cfg : RenderConfig) (cosF sinF : ℚ → ℚ)
    (piQ : ℚ) (rand : Nat → ℚ) (startY : ℚ) (key : String) (st : LineState) :
    (lineStep fd cfg cosF sinF piQ rand startY key st).tokens = st.tokens ++ [key] ∧
    (lineStep fd cfg cosF sinF piQ rand startY key st).advanceCount =
      st.advanceCount + 1 := by
  unfold lineStep
  by_cases hsp : key = " "
  · simp [hsp]
  · cases hl : List.lookup key fd with
    | none => simp [hsp, hl]
    | some cd => simp [hsp, hl]

/-- The missing-list delta of one loop iteration: the resolved key is
appended iff it is not the space glyph and is absent from the document. -/
theorem lineStep_missing (fd : FontDoc) (cfg : RenderConfig) (cosF sinF : ℚ → ℚ)
    (piQ : ℚ) (rand : Nat → ℚ) (startY : ℚ) (key : String) (st : LineState) :
    (lineStep fd cfg cosF sinF piQ rand startY key st).missing =
      st.missing ++
        (if key = " " then [] else if hasCharacter fd key then [] else [key]) := by
  unfold lineStep
  by_cases hsp : key = " "
  · simp [hsp]
  · cases hl : List.lookup key fd with
    | none => simp [hasCharacter, hsp, hl]
    | some cd => simp [hasCharacter, hsp, hl]

/-- A two-character string is never the one-character space glyph. -/
theorem pair_ne_space (c1 c2 : Char) : String.mk [c1, c2] ≠ " " := by
  intro h
  have h2 : ([c1, c2] : List Char) = [' '] := congrArg String.data h
  simp at h2

/-- One-step unfolding of the loop at a position with at least two
remaining characters. -/
theorem renderLineGo_cons_cons (fd : FontDoc) (cfg : RenderConfig)
    (cosF sinF : ℚ → ℚ) (piQ : ℚ) (rand : Nat → ℚ) (startY : ℚ)
    (c1 c2 : Char) (rest : List Char) (st : LineState) :
    renderLineGo fd cfg cosF sinF piQ rand startY (c1 :: c2 :: rest) st =
      if hasCharacter fd (String.mk [c1, c2]) then
        renderLineGo fd cfg cosF sinF piQ rand startY rest
          (lineStep fd cfg cosF sinF piQ rand startY (String.mk [c1, c2]) st)
      else
        renderLineGo fd cfg cosF sinF piQ rand startY (c2 :: rest)
          (lineStep fd cfg cosF sinF piQ rand startY (String.mk [c1]) st) := rfl

/-- The loop's missing list is exactly the claim-side description: every
missing key resolved by the pair-first tokenization is recorded, in order,
and nothing else is. -/
theorem renderLineGo_missing (fd : FontDoc) (cfg : RenderConfig) (cosF sinF : ℚ → ℚ)
    (piQ : ℚ) (rand : Nat → ℚ) (startY : ℚ) :
    ∀ (l : List Char) (st : LineState),
      (renderLineGo fd cfg cosF sinF piQ rand startY l st).missing =
        st.missing ++ lineMissingSpec fd l
  | [], st => by simp [renderLineGo, lineMissingSpec]
  | [c], st => by
      rw [show renderLineGo fd cfg cosF sinF piQ rand startY [c] st =
        lineStep fd cfg cosF sinF piQ rand startY (String.mk [c]) st from rfl]
      rw [lineStep_missing]
      simp [lineMissingSpec]
  | c1 :: c2 :: rest, st => by
      by_cases hp : hasCharacter fd (String.mk [c1, c2])
      · rw [renderLineGo_cons_cons, if_pos hp]
        rw [renderLineGo_missing fd cfg cosF sinF piQ rand startY rest _, lineStep_missing]
        rw [if_neg (pair_ne_space c1 c2), if_pos hp]
        simp only [lineMissingSpec, if_pos hp, List.append_nil, List.append_assoc]
      · rw [renderLineGo_cons_cons, if_neg hp]
        rw [renderLineGo_missing fd cfg cosF sinF piQ rand startY (c2 :: rest) _,
          lineStep_missing]
        simp only [lineMissingSpec, if_neg hp, List.append_assoc]

/-- C2 counterexample: rendering the line `"x"` against an empty font
document makes the loop record the missing key `"x"` internally, yet the
value `renderLine` returns is exactly `{svg := [], width := 30}` (the
placeholder advance `0.5 × 60`) — it carries the geometry and the advanced
width but no set of missing keys. -/
theorem renderLine_C2_missing_not_returned_cex :
    (renderLineGo [] ⟨60, 5, 3/2, 2, true⟩ (fun _ => 1) (fun _ => 0) 0 (fun _ => 0) 100
        "x".data ⟨50, [], [], none, 0, [], 0⟩).missing = ["x"] ∧
    renderLine [] ⟨60, 5, 3/2, 2, true⟩ (fun _ => 1) (fun _ => 0) 0 (fun _ => 0)
        "x" 50 100 = ⟨[], 30⟩ := by
  refine ⟨rfl, ?_⟩
  show LineResult.mk [] (50 + (60:ℚ) * (1/2) - 50) = ⟨[], 30⟩
  simp only [LineResult.mk.injEq]
  norm_num

/-- C2 (amended): `renderLine` returns the accumulated geometry and the
total advanced width only; the missing keys are collected in an internal
list (reported via a console warning, not returned), that list records
exactly the keys resolved during layout that are absent from the document,
and a missing key is not an error — the iteration appends the key and
advances the cursor by `fontSize × 0.5`, leaving everything else of the
state unchanged, and layout continues. -/
theorem renderLine_C2_missing_handling (fd : FontDoc) (cfg : RenderConfig)
    (cosF sinF : ℚ → ℚ) (piQ : ℚ) (rand : Nat → ℚ) (startY : ℚ) :
    (∀ (text : String) (startX : ℚ),
      renderLine fd cfg cosF sinF piQ rand text startX startY =
        ⟨(renderLineGo fd cfg cosF sinF piQ rand startY text.data
            ⟨startX, [], [], none, 0, [], 0⟩).svg,
         (renderLineGo fd cfg cosF sinF piQ rand startY text.data
            ⟨startX, [], [], none, 0, [], 0⟩).x - startX⟩) ∧
    (∀ (l : List Char) (st : LineState),
      (renderLineGo fd cfg cosF sinF piQ rand startY l st).missing =
        st.missing ++ lineMissingSpec fd l) ∧
    (∀ (key : String) (st : LineState), key ≠ " " → hasCharacter fd key = false →
      lineStep fd cfg cosF sinF piQ rand startY key st =
        ⟨st.x + cfg.fontSize * (1/2), st.svg, st.missing ++ [key], st.prevConnector,
         st.randIdx, st.tokens ++ [key], st.advanceCount + 1⟩) := by
  refine ⟨fun _ _ => rfl, renderLineGo_missing fd cfg cosF sinF piQ rand startY, ?_⟩
  intro key st hsp hmiss
  unfold lineStep
  rw [if_neg hsp]
  have : List.lookup key fd = none := by
    unfold hasCharacter at hmiss
    exact Option.not_isSome_iff_eq_none.mp (by simp [hmiss])
  rw [this]

/-- Witness for `renderLine_C2_missing_handling`: the missing-key step on
the concrete key `"x"` against the empty document. -/
theorem renderLine_C2_missing_handling_witness :
    ("x" ≠ " ") ∧ hasCharacter [] "x" = false ∧
    lineStep [] ⟨60, 5, 3/2, 2, true⟩ (fun _ => 1) (fun _ => 0) 0 (fun _ => 0) 100 "x"
        ⟨50, [], [], none, 0, [], 0⟩ =
      ⟨50 + 60 * (1/2), [], [] ++ ["x"], none, 0, [] ++ ["x"], 0 + 1⟩ :=
  ⟨by decide, rfl,
   (renderLine_C2_missing_handling [] ⟨60, 5, 3/2, 2, true⟩ (fun _ => 1) (fun _ => 0) 0
     (fun _ => 0) 100).2.2 "x" ⟨50, [], [], none, 0, [], 0⟩ (by decide) rfl⟩

/-- C8: layout performs a longest-match lookup — when the next two
characters form a stored key both are consumed by one loop iteration,
otherwise one character is consumed; in particular laying out the
two-character line `"th"` when `"th"` is a stored key consumes both
characters as a single glyph lookup (one recorded token) and advances the
cursor once, not twice. -/
theorem renderLine_C8_longest_match (fd : FontDoc) (cfg : RenderConfig)
    (cosF sinF : ℚ → ℚ) (piQ : ℚ) (rand : Nat → ℚ) (startY : ℚ) :
    (∀ (c1 c2 : Char) (rest : List Char) (st : LineState),
      hasCharacter fd (String.mk [c1, c2]) = true →
      renderLineGo fd cfg cosF sinF piQ rand startY (c1 :: c2 :: rest) st =
        renderLineGo fd cfg cosF sinF piQ rand startY rest
          (lineStep fd cfg cosF sinF piQ rand startY (String.mk [c1, c2]) st)) ∧
    (∀ (c1 c2 : Char) (rest : List Char) (st : LineState),
      hasCharacter fd (String.mk [c1, c2]) = false →
      renderLineGo fd cfg cosF sinF piQ rand startY (c1 :: c2 :: rest) st =
        renderLineGo fd cfg cosF sinF piQ rand startY (c2 :: rest)
          (lineStep fd cfg cosF sinF piQ rand startY (String.mk [c1]) st)) ∧
    (hasCharacter fd "th" = true → ∀ st : LineState,
      (renderLineGo fd cfg cosF sinF piQ rand startY "th".data st).tokens =
        st.tokens ++ ["th"] ∧
      (renderLineGo fd cfg cosF sinF piQ rand startY "th".data st).advanceCount =
        st.advanceCount + 1) := by
  refine ⟨?_, ?_, ?_⟩
  · intro c1 c2 rest st hp
    rw [renderLineGo_cons_cons, if_pos hp]
  · intro c1 c2 rest st hp
    rw [renderLineGo_cons_cons, if_neg (by simp [hp])]
  · intro hth st
    have hdata : "th".data = ['t', 'h'] := rfl
    have hkey : String.mk ['t', 'h'] = "th" := rfl
    rw [hdata]
    rw [show renderLineGo fd cfg cosF sinF piQ rand startY ['t', 'h'] st =
      lineStep fd cfg cosF sinF piQ rand startY (String.mk ['t', 'h']) st by
        rw [renderLineGo_cons_cons, if_pos (hkey ▸ hth)]; rfl]
    rw [hkey]
    exact lineStep_tokens fd cfg cosF sinF piQ rand startY "th" st

/-- Witness for `renderLine_C8_longest_match`: a concrete document storing
the ligature key `"th"`, laid out on the concrete line `"th"`. -/
theorem renderLine_C8_longest_match_witness :
    hasCharacter [("th", ⟨[⟨[⟨0, 0, some (1/2), some 0⟩, ⟨1, 0, some (1/2), some 1⟩]⟩],
        ⟨0, 0, 1, 0, 1, 0⟩, 0, none, none⟩)] "th" = true ∧
    ((renderLineGo [("th", ⟨[⟨[⟨0, 0, some (1/2), some 0⟩, ⟨1, 0, some (1/2), some 1⟩]⟩],
          ⟨0, 0, 1, 0, 1, 0⟩, 0, none, none⟩)] ⟨60, 5, 3/2, 2, true⟩ (fun _ => 1)
          (fun _ => 0) 0 (fun _ => 0) 100 "th".data
          ⟨50, [], [], none, 0, [], 0⟩).tokens = [] ++ ["th"] ∧
     (renderLineGo [("th", ⟨[⟨[⟨0, 0, some (1/2), some 0⟩, ⟨1, 0, some (1/2), some 1⟩]⟩],
          ⟨0, 0, 1, 0, 1, 0⟩, 0, none, none⟩)] ⟨60, 5, 3/2, 2, true⟩ (fun _ => 1)
          (fun _ => 0) 0 (fun _ => 0) 100 "th".data
          ⟨50, [], [], none, 0, [], 0⟩).advanceCount = 0 + 1) :=
  ⟨rfl,
   (renderLine_C8_longest_match [("th", ⟨[⟨[⟨0, 0, some (1/2), some 0⟩,
       ⟨1, 0, some (1/2), some 1⟩]⟩], ⟨0, 0, 1, 0, 1, 0⟩, 0, none, none⟩)]
     ⟨60, 5, 3/2, 2, true⟩ (fun _ => 1) (fun _ => 0) 0 (fun _ => 0) 100).2.2 rfl
     ⟨50, [], [], none, 0, [], 0⟩⟩

/-- C9 counterexample: a glyph consisting of one single-point stroke.
`renderCharacter` emits a group with an empty path list — no curve path,
but also no dot and no other geometry — so the stroke produces nothing
visible in the rendered output; `generatePathData` alone would emit only a
move command. -/
theorem renderCharacter_C9_single_point_cex :
    renderCharacter [⟨[⟨5, 7, none, none⟩]⟩] 0 100 60
        ⟨[⟨[⟨5, 7, none, none⟩]⟩], ⟨0, 0, 0, 0, 0, 0⟩, 0, none, none⟩ =
      ⟨0, 100 - 7/10 * 60, []⟩ ∧
    (100 : ℚ) - 7/10 * 60 = 58 ∧
    generatePathData [⟨5, 7, none, none⟩] 60 = [PathCmd.move 300 420] :=
  ⟨rfl, by norm_num, by unfold generatePathData; norm_num⟩

/-- C9 (amended): the path encoder emits no curve for a single-point stroke
(only a move command), and `renderCharacter` skips every stroke with fewer
than 2 points outright — it emits no path and no dot for it, so a
single-point stroke contributes no geometry at all to the rendered output
(only the capture-page canvas preview draws a dot for such strokes). -/
theorem renderCharacter_C9_skips_short (strokes : List Stroke) (x baselineY size : ℚ)
    (cd : Character) :
    ((renderCharacter strokes x baselineY size cd).paths =
      (strokes.filter fun s => 2 ≤ s.points.length).map fun s =>
        (⟨generatePathData s.points size,
          StrokeProcessor.mapPressureToWidth (avgPressure s.points) MIN_STROKE_WIDTH
            MAX_STROKE_WIDTH⟩ : PathElem)) ∧
    (∀ (p : Point) (scale : ℚ),
      generatePathData [p] scale = [PathCmd.move (p.x * scale) (p.y * scale)]) := by
  constructor
  · unfold renderCharacter
    induction strokes with
    | nil => rfl
    | cons s t ih =>
        by_cases hs : s.points.length < 2
        · have hs2 : ¬ 2 ≤ s.points.length := by omega
          simp only [List.filterMap_cons, List.filter_cons, if_pos hs,
            decide_eq_true_eq, hs2, if_false]
          simpa using ih
        · have hs2 : 2 ≤ s.points.length := by omega
          simp only [List.filterMap_cons, List.filter_cons, if_neg hs,
            decide_eq_true_eq, hs2, if_true, List.map_cons]
          simpa using ih
  · intro p scale
    rfl

end TextRenderer

end HandwritingSVG
